import Mathlib

/-!
Verification of the git history attribution engine (`git_utils.py`).

The engine's pure logic is embedded shallowly.  External `git` subprocess
invocations are modelled by a `GitEnv` record holding, for each command the
engine issues, the outcome git would report (`none` = non-zero exit status,
`some out` = exit 0 with stdout `out`, already split into lines where the
source calls `splitlines()`).  Python strings are Lean `String`s; every
Python string primitive the source uses (`strip`, `lower`, `startswith`,
slicing, `split`, `int(...)`) is re-implemented structurally on the
underlying character list so that concrete instances reduce inside the
kernel.  Python `dict`s are modelled as functions into `Option`, Python
`set`s as `Finset String`.  A Python function that can raise is modelled
with an `Option`/`Except` result.
-/

/-- Python `str.strip()` (ASCII whitespace model). -/
def pyStrip (s : String) : String :=
  ⟨((s.data.dropWhile Char.isWhitespace).reverse.dropWhile Char.isWhitespace).reverse⟩

/-- Python `str.lower()` (ASCII model, matching `Char.toLower`). -/
def pyLower (s : String) : String := ⟨s.data.map Char.toLower⟩

/-- Python `s.startswith(pat)`. -/
def pyStartsWith (s pat : String) : Bool := pat.data.isPrefixOf s.data

/-- Python `len(s)` (counts code points). -/
def pyLen (s : String) : Nat := s.data.length

/-- Python `s[n:]` (slicing by code points). -/
def pyDropChars (s : String) (n : Nat) : String := ⟨s.data.drop n⟩

/-- Python `s.split(maxsplit=1)[1]`, as an `Option` (`none` when the split
yields fewer than two fields): skip leading whitespace, skip the first
whitespace-free token, skip the following whitespace run; the (nonempty)
remainder is the second field. -/
def pySplit1Rest (s : String) : Option String :=
  let t := s.data.dropWhile Char.isWhitespace
  let afterTok := t.dropWhile (fun c => !c.isWhitespace)
  let rest := afterTok.dropWhile Char.isWhitespace
  if rest.isEmpty then none else some ⟨rest⟩

/-- Helper for `pySplitTab1`: break a character list at the first tab. -/
def breakAtTab : List Char → Option (List Char × List Char)
  | [] => none
  | c :: cs =>
    if c = '\t' then some ([], cs)
    else (breakAtTab cs).map (fun pr => (c :: pr.1, pr.2))

/-- Python `s.split("\t", 1)` restricted to the two-field case: `none` when
`s` contains no tab (the one-field case), otherwise the text before and
after the first tab. -/
def pySplitTab1 (s : String) : Option (String × String) :=
  (breakAtTab s.data).map (fun pr => (⟨pr.1⟩, ⟨pr.2⟩))

/-- Decimal digit accumulator for `pyInt?`. -/
def digitsToNatAux : List Char → Nat → Option Nat
  | [], acc => some acc
  | c :: cs, acc =>
    if c.isDigit then digitsToNatAux cs (acc * 10 + (c.toNat - 48)) else none

/-- Parse a nonempty all-digit character list. -/
def digitsToNat? (l : List Char) : Option Nat :=
  if l.isEmpty then none else digitsToNatAux l 0

/-- Python `int(s)` as an `Option` (`none` models the raised `ValueError`):
surrounding whitespace is stripped, an optional sign is followed by a
nonempty digit string. -/
def pyInt? (s : String) : Option Int :=
  match (pyStrip s).data with
  | '-' :: rest => (digitsToNat? rest).map (fun n => -(n : Int))
  | '+' :: rest => (digitsToNat? rest).map (fun n => (n : Int))
  | l => (digitsToNat? l).map (fun n => (n : Int))

/-- Helper for `posixNormalize`: split a character list on `'/'`,
keeping empty components (Python `str.split('/')`). -/
def splitSlashAux : List Char → List Char → List (List Char)
  | [], acc => [acc.reverse]
  | c :: cs, acc =>
    if c = '/' then acc.reverse :: splitSlashAux cs []
    else splitSlashAux cs (c :: acc)

/-- Helper for `posixNormalize`: re-join components with `'/'`. -/
def joinSlash : List (List Char) → List Char
  | [] => []
  | [x] => x
  | x :: xs => x ++ '/' :: joinSlash xs

/-- Python `Path(s).as_posix()` on POSIX: drop empty and `"."` path
components, keep `".."`, preserve a root of `"/"` (or exactly `"//"`),
and render the empty path as `"."`. -/
def posixNormalize (s : String) : String :=
  let comps := (splitSlashAux s.data []).filter (fun c => !(c.isEmpty || c = ['.']))
  let root : List Char :=
    if pyStartsWith s "//" && !(pyStartsWith s "///") then ['/', '/']
    else if pyStartsWith s "/" then ['/']
    else []
  let body := joinSlash comps
  if root.isEmpty && body.isEmpty then "." else ⟨root ++ body⟩

/-- `normalize_git_path` (src/git_utils.py:71-81): rewrite a top-level
relative log path to a `path_prefix_str`-relative one, `none` when the
path lies outside the prefix. -/
def normalize_git_path (log_path : String) (path_prefix_str : String) : Option String :=
  let rel := posixNormalize log_path
  if path_prefix_str = "" then some rel
  else
    let pfx_slash := path_prefix_str ++ "/"
    if rel = path_prefix_str then some ""
    else if pyStartsWith rel pfx_slash then some (pyDropChars rel (pyLen pfx_slash))
    else none

/-- Python truthiness filter applied by every caller of
`normalize_git_path` (`if not normalized_path: continue`): both `None`
and the empty string are dropped. -/
def truthyPath : Option String → Option String
  | none => none
  | some p => if p = "" then none else some p

/-- `FileCommitDescription` (src/git_utils.py:8-12). -/
structure FileCommitDescription where
  commit_hash : String
  commit_date : String
  description : String
deriving DecidableEq

/-- `GitHistoryInfo` (src/git_utils.py:15-19); the timestamp dict is a
function into `Option`. -/
structure GitHistoryInfo where
  is_git_repo : Bool
  file_commit_timestamps : String → Option Int
  added_never_modified_files : Finset String

/-- `RepoMetadata` (src/git_utils.py:22-26).  The cache maps a path to
`none` (no dict entry) or `some v` where `v` is the stored
`FileCommitDescription | None` value. -/
structure RepoMetadata where
  is_git_repo : Bool
  description_cache : String → Option (Option FileCommitDescription)

/-- Outcomes of every git subprocess the engine runs, for one fixed
repository state.  `none` models a non-zero exit status; `some` carries
the stdout (split into lines where the source calls `splitlines()`). -/
structure GitEnv where
  is_inside_work_tree : Bool
  path_prefix_str : String
  rev_parse_verify : String → Option String
  ts_log : Option (List String)
  status_log : Option (List String)
  desc_log : Option (List String)
  single_file_log : String → Option (List String)
  plain_log : Option (List String)

/-- Timestamp-per-file log scan (src/git_utils.py:281-297), one line at a
time; `none` models the `ValueError`/`IndexError` a malformed marker line
would raise in `int(line.split(maxsplit=1)[1])`. -/
def parse_timestamp_log (pfx : String) :
    Option Int → (String → Option Int) → List String → Option (String → Option Int)
  | _, m, [] => some m
  | cur, m, raw :: rest =>
    let line := pyStrip raw
    if line = "" then parse_timestamp_log pfx cur m rest
    else if pyStartsWith line "__COMMIT__ " then
      match pySplit1Rest line with
      | none => none
      | some payload =>
        match pyInt? payload with
        | none => none
        | some t => parse_timestamp_log pfx (some t) m rest
    else
      match cur with
      | none => parse_timestamp_log pfx cur m rest
      | some t =>
        match truthyPath (normalize_git_path line pfx) with
        | none => parse_timestamp_log pfx cur m rest
        | some p => parse_timestamp_log pfx cur (fun s => if s = p then some t else m s) rest

/-- State of the `--name-status` log scan (src/git_utils.py:312-314). -/
structure StatusScan where
  all_added_files : Finset String
  all_modified_files : Finset String
  current_commit_hash : Option String
deriving DecidableEq

/-- The ignored-commit membership test of src/git_utils.py:337-341:
exact match or hash-prefix match against the resolved set. -/
def commit_is_ignored (resolved : Finset String) (h : String) : Prop :=
  ∃ ig ∈ resolved, h = ig ∨ pyStartsWith h ig = true

instance (resolved : Finset String) (h : String) :
    Decidable (commit_is_ignored resolved h) :=
  Finset.decidableExistsAndFinset

/-- One line of the `--name-status` log scan (src/git_utils.py:315-344). -/
def status_scan_step (pfx : String) (resolved : Finset String)
    (st : StatusScan) (raw : String) : StatusScan :=
  let line := pyStrip raw
  if line = "" then st
  else if pyStartsWith line "__COMMIT__" then
    { st with current_commit_hash := pySplit1Rest line }
  else
    match pySplitTab1 line with
    | none => st
    | some (status, rel_path) =>
      match truthyPath (normalize_git_path rel_path pfx) with
      | none => st
      | some p =>
        if status = "A" then
          { st with all_added_files := insert p st.all_added_files }
        else if status = "M" then
          if commit_is_ignored resolved (pyLower (st.current_commit_hash.getD "")) then st
          else { st with all_modified_files := insert p st.all_modified_files }
        else st

/-- The full `--name-status` log scan. -/
def status_scan (pfx : String) (resolved : Finset String)
    (st : StatusScan) (lines : List String) : StatusScan :=
  lines.foldl (status_scan_step pfx resolved) st

/-- `resolve_commit_hashes` on a single ref (src/git_utils.py:233-249):
strip and lower-case the token, skip it when empty, otherwise resolve it
via `rev-parse --verify` and fall back to the token itself. -/
def resolve_one (env : GitEnv) (commit_ref : String) : Option String :=
  let commit := pyLower (pyStrip commit_ref)
  if commit = "" then none
  else
    match env.rev_parse_verify commit with
    | some out => some (pyLower (pyStrip out))
    | none => some commit

/-- `resolve_commit_hashes` (src/git_utils.py:231-251). -/
def resolve_commit_hashes (env : GitEnv) (commit_refs : Finset String) : Finset String :=
  commit_refs.biUnion (fun r => (resolve_one env r).toFinset)

/-- `collect_git_history_info_with_ignored_modification_commits`
(src/git_utils.py:254-350).  `none` models a raised exception:
`check=True` on a failing log command, or a malformed timestamp marker. -/
def collect_git_history_info_with_ignored_modification_commits
    (env : GitEnv) (ignored_modification_commits : Finset String) : Option GitHistoryInfo :=
  if !env.is_inside_work_tree then some ⟨false, fun _ => none, ∅⟩
  else
    let resolved := resolve_commit_hashes env ignored_modification_commits
    match env.ts_log with
    | none => none
    | some ts_lines =>
      match parse_timestamp_log env.path_prefix_str none (fun _ => none) ts_lines with
      | none => none
      | some file_commit_timestamps =>
        match env.status_log with
        | none => none
        | some status_lines =>
          let st := status_scan env.path_prefix_str resolved ⟨∅, ∅, none⟩ status_lines
          some ⟨true, file_commit_timestamps,
                st.all_added_files \ st.all_modified_files⟩

/-- State of the description-mode log scan (src/git_utils.py:123-126). -/
structure DescScan where
  descriptions : String → Option (Option FileCommitDescription)
  current_commit_hash : Option String
  current_commit_date : Option String
  current_commit_subject : Option String

/-- One line of the description-mode log scan (src/git_utils.py:128-159). -/
def desc_scan_step (pfx : String) (st : DescScan) (raw : String) : DescScan :=
  let line := pyStrip raw
  if line = "" then st
  else if line = "__COMMIT__" then
    { st with current_commit_hash := none, current_commit_date := none,
              current_commit_subject := none }
  else
    match st.current_commit_hash with
    | none => { st with current_commit_hash := some line }
    | some h =>
      match st.current_commit_date with
      | none => { st with current_commit_date := some line }
      | some d =>
        match st.current_commit_subject with
        | none => { st with current_commit_subject := some line }
        | some subj =>
          match truthyPath (normalize_git_path line pfx) with
          | none => st
          | some p =>
            { st with descriptions :=
                fun q => if q = p then some (some ⟨h, d, subj⟩) else st.descriptions q }

/-- `collect_recent_file_descriptions` (src/git_utils.py:104-161): empty
dict when the bulk log command fails, otherwise the description scan. -/
def collect_recent_file_descriptions (env : GitEnv) :
    String → Option (Option FileCommitDescription) :=
  match env.desc_log with
  | none => fun _ => none
  | some ls => (ls.foldl (desc_scan_step env.path_prefix_str) ⟨fun _ => none, none, none, none⟩).descriptions

/-- `build_repo_metadata` (src/git_utils.py:164-170). -/
def build_repo_metadata (env : GitEnv) : RepoMetadata :=
  let repo_is_git := env.is_inside_work_tree
  let cache := if repo_is_git then collect_recent_file_descriptions env else fun _ => none
  ⟨repo_is_git, cache⟩

/-- Store a value in the description cache (the dict assignment
`repo.description_cache[rel_path] = v`). -/
def cache_store (repo : RepoMetadata) (p : String)
    (v : Option FileCommitDescription) : RepoMetadata :=
  { repo with description_cache :=
      fun q => if q = p then some v else repo.description_cache q }

/-- `get_file_description` (src/git_utils.py:173-205).  The third
component counts the git log queries the call issued (0 or 1). -/
def get_file_description (env : GitEnv) (repo : RepoMetadata) (rel_path : String) :
    Option FileCommitDescription × RepoMetadata × Nat :=
  match repo.description_cache rel_path with
  | some v => (v, repo, 0)
  | none =>
    if !repo.is_git_repo then (none, cache_store repo rel_path none, 0)
    else
      match env.single_file_log rel_path with
      | none => (none, cache_store repo rel_path none, 1)
      | some out =>
        match (out.map pyStrip).filter (fun l => !(l == "")) with
        | h :: d :: subj :: _ =>
          (some ⟨h, d, subj⟩, cache_store repo rel_path (some ⟨h, d, subj⟩), 1)
        | _ => (none, cache_store repo rel_path none, 1)

/-- `load_commit_list` line loop (src/git_utils.py:215-226), carrying the
1-based line number; `.error` models the raised `ValueError`. -/
def load_commit_list_from :
    Nat → Finset String → List String → Except String (Finset String)
  | _, commits, [] => .ok commits
  | line_number, commits, raw :: rest =>
    let line := pyStrip raw
    if line = "" || pyStartsWith line "#" || pyStartsWith line "//" then
      load_commit_list_from (line_number + 1) commits rest
    else if line.data.any Char.isWhitespace then
      .error ("Invalid commit list line " ++ toString line_number ++
        ": commit hash must not contain spaces")
    else
      load_commit_list_from (line_number + 1) (insert (pyLower line) commits) rest

/-- `load_commit_list` (src/git_utils.py:212-228), over the file's lines. -/
def load_commit_list (lines : List String) : Except String (Finset String) :=
  load_commit_list_from 1 ∅ lines

/-- `get_last_commit_timestamps` line loop (src/git_utils.py:362-378):
raw lines (no strip), marker `__COMMIT__` with no space, `Path(line)`
keys (modelled by `posixNormalize`), first-write-wins; `none` models the
`ValueError` of a malformed marker. -/
def last_timestamps_scan :
    Option Int → (String → Option Int) → List String → Option (String → Option Int)
  | _, m, [] => some m
  | cur, m, line :: rest =>
    if line = "" then last_timestamps_scan cur m rest
    else if pyStartsWith line "__COMMIT__" then
      match pyInt? (pyDropChars line (pyLen "__COMMIT__")) with
      | none => none
      | some t => last_timestamps_scan (some t) m rest
    else
      match cur with
      | none => last_timestamps_scan cur m rest
      | some t =>
        let key := posixNormalize line
        match m key with
        | some _ => last_timestamps_scan cur m rest
        | none => last_timestamps_scan cur (fun s => if s = key then some t else m s) rest

/-- `get_last_commit_timestamps` (src/git_utils.py:359-378); the outer
`none` models `run_git_stdout` raising on a failed log command. -/
def get_last_commit_timestamps (env : GitEnv) : Option (String → Option Int) :=
  match env.plain_log with
  | none => none
  | some lines => last_timestamps_scan none (fun _ => none) lines

-- ### Helper lemmas on the string model

theorem string_data_append (a b : String) : (a ++ b).data = a.data ++ b.data := rfl

theorem string_mk_data (s : String) : String.mk s.data = s := rfl

theorem isPrefixOf_append_self : ∀ (l t : List Char), l.isPrefixOf (l ++ t) = true
  | [], _ => by simp [List.isPrefixOf]
  | c :: cs, t => by
    show (c == c && cs.isPrefixOf (cs ++ t)) = true
    simp [isPrefixOf_append_self cs t]

theorem data_slash : "/".data = ['/'] := rfl

/-- C5 counterexample: `normalize(p, "")` is not the identity on every
log path, because the source first runs the path through
`Path(log_path).as_posix()`, which collapses duplicate slashes: at
`p = "a//b"` the result is `some "a/b"`, not `some "a//b"`. -/
theorem normalize_git_path_identity_cex :
    normalize_git_path "a//b" "" = some "a/b" ∧
    normalize_git_path "a//b" "" ≠ some "a//b" := by
  constructor
  · decide
  · decide

/-- C5 (amended): for inputs already in POSIX normal form (fixed points of
the `Path(...).as_posix()` normalization, which every git-emitted path is):
`normalize(p, "") = p`; for a non-empty normal prefix,
`normalize(prefix, prefix) = ""` and `normalize(prefix + "/x", prefix) = x`;
and `normalize(q, prefix)` is absent when the normal path `q` neither
equals the prefix nor starts with `prefix + "/"`. -/
theorem normalize_git_path_spec (p pfxs x q : String)
    (hp : posixNormalize p = p)
    (hpfx : pfxs ≠ "")
    (hpfxn : posixNormalize pfxs = pfxs)
    (hx : posixNormalize (pfxs ++ "/" ++ x) = pfxs ++ "/" ++ x)
    (hq : posixNormalize q = q)
    (hq1 : q ≠ pfxs)
    (hq2 : pyStartsWith q (pfxs ++ "/") = false) :
    normalize_git_path p "" = some p ∧
    normalize_git_path pfxs pfxs = some "" ∧
    normalize_git_path (pfxs ++ "/" ++ x) pfxs = some x ∧
    normalize_git_path q pfxs = none := by
  refine ⟨?_, ?_, ?_, ?_⟩
  · simp [normalize_git_path, hp]
  · simp [normalize_git_path, hpfxn, hpfx]
  · have hne : pfxs ++ "/" ++ x ≠ pfxs := by
      intro h
      have hlen := congrArg pyLen h
      simp [pyLen, string_data_append, data_slash] at hlen
    have hsw : pyStartsWith (pfxs ++ "/" ++ x) (pfxs ++ "/") = true := by
      unfold pyStartsWith
      rw [show (pfxs ++ "/" ++ x).data = (pfxs ++ "/").data ++ x.data from rfl]
      exact isPrefixOf_append_self _ _
    have hdrop : pyDropChars (pfxs ++ "/" ++ x) (pyLen (pfxs ++ "/")) = x := by
      unfold pyDropChars pyLen
      rw [show (pfxs ++ "/" ++ x).data = (pfxs ++ "/").data ++ x.data from rfl,
        List.drop_left]
    simp [normalize_git_path, hx, hpfx, hne, hsw, hdrop]
  · simp [normalize_git_path, hq, hpfx, hq1, hq2]

/-- C5 witness: concrete instances of the four amended normalization
properties, at the spec's own scenario (`lib/` working root). -/
theorem normalize_git_path_spec_witness :
    normalize_git_path "a/b" "" = some "a/b" ∧
    normalize_git_path "lib" "lib" = some "" ∧
    normalize_git_path ("lib" ++ "/" ++ "core.py") "lib" = some "core.py" ∧
    normalize_git_path "docs/readme.md" "lib" = none :=
  normalize_git_path_spec "a/b" "lib" "core.py" "docs/readme.md"
    (by decide) (by decide) (by decide) (by decide) (by decide) (by decide) (by decide)

/-- C9: when the bulk description log command exits non-zero,
`collect_recent_file_descriptions` returns the empty dict (and raises
nothing, being a total function of the outcome), and `build_repo_metadata`
therefore yields an empty description cache. -/
theorem collect_recent_file_descriptions_failure (env : GitEnv)
    (h : env.desc_log = none) :
    collect_recent_file_descriptions env = (fun _ => none) ∧
    (build_repo_metadata env).description_cache = (fun _ => none) := by
  have h1 : collect_recent_file_descriptions env = fun _ => none := by
    unfold collect_recent_file_descriptions
    rw [h]
  refine ⟨h1, ?_⟩
  unfold build_repo_metadata
  cases henv : env.is_inside_work_tree <;> simp [henv, h1]

def envDescFail : GitEnv :=
  ⟨true, "", fun _ => none, none, none, none, fun _ => none, none⟩

/-- C9 witness: a tracked repository whose bulk description log fails. -/
theorem collect_recent_file_descriptions_failure_witness :
    collect_recent_file_descriptions envDescFail = (fun _ => none) ∧
    (build_repo_metadata envDescFail).description_cache = (fun _ => none) :=
  collect_recent_file_descriptions_failure envDescFail rfl

-- ### C7 helper lemmas

theorem gfd_cache_holds_result (env : GitEnv) (repo : RepoMetadata) (p : String) :
    (get_file_description env repo p).2.1.description_cache p =
      some (get_file_description env repo p).1 := by
  unfold get_file_description
  rcases hc : repo.description_cache p with _ | v
  · cases hg : repo.is_git_repo
    · simp [hc, hg, cache_store]
    · rcases hl : env.single_file_log p with _ | out
      · simp [hc, hg, hl, cache_store]
      · rcases hm : (out.map pyStrip).filter (fun l => !(l == "")) with _ | ⟨h1, t1⟩
        · simp [hc, hg, hl, hm, cache_store]
        · rcases t1 with _ | ⟨h2, t2⟩
          · simp [hc, hg, hl, hm, cache_store]
          · rcases t2 with _ | ⟨h3, t3⟩
            · simp [hc, hg, hl, hm, cache_store]
            · simp [hc, hg, hl, hm, cache_store]
  · simp [hc]

theorem gfd_cache_hit (env : GitEnv) (repo : RepoMetadata) (p : String)
    (v : Option FileCommitDescription) (h : repo.description_cache p = some v) :
    get_file_description env repo p = (v, repo, 0) := by
  unfold get_file_description
  simp [h]

theorem gfd_query_count (env : GitEnv) (repo : RepoMetadata) (p : String) :
    (get_file_description env repo p).2.2 ≤ 1 := by
  unfold get_file_description
  rcases hc : repo.description_cache p with _ | v
  · cases hg : repo.is_git_repo
    · simp [hc, hg]
    · rcases hl : env.single_file_log p with _ | out
      · simp [hc, hg, hl]
      · rcases hm : (out.map pyStrip).filter (fun l => !(l == "")) with _ | ⟨h1, t1⟩
        · simp [hc, hg, hl, hm]
        · rcases t1 with _ | ⟨h2, t2⟩
          · simp [hc, hg, hl, hm]
          · rcases t2 with _ | ⟨h3, t3⟩
            · simp [hc, hg, hl, hm]
            · simp [hc, hg, hl, hm]
  · simp [hc]

/-- C7: two successive `get_file_description` calls for the same path
return identical results and issue at most one git log query in total;
the first call stores its result (present or absent alike) in the cache,
so the second call is a pure cache read. -/
theorem get_file_description_cache_effective (env : GitEnv) (repo : RepoMetadata) (p : String) :
    (get_file_description env (get_file_description env repo p).2.1 p).1 =
      (get_file_description env repo p).1 ∧
    (get_file_description env repo p).2.2 +
      (get_file_description env (get_file_description env repo p).2.1 p).2.2 ≤ 1 ∧
    (get_file_description env repo p).2.1.description_cache p =
      some (get_file_description env repo p).1 := by
  have hcache := gfd_cache_holds_result env repo p
  have hhit := gfd_cache_hit env (get_file_description env repo p).2.1 p
    (get_file_description env repo p).1 hcache
  have hcount := gfd_query_count env repo p
  refine ⟨?_, ?_, hcache⟩
  · rw [hhit]
  · rw [hhit]
    simpa using hcount

-- ### C8: resolve_commit_hashes

def envNoResolve : GitEnv :=
  ⟨true, "", fun _ => none, none, none, none, fun _ => none, none⟩

/-- C8 counterexample: for the input ref set containing only the empty
token, `resolve_commit_hashes` skips the ref entirely (the source strips
and lower-cases the token and `continue`s when it is empty), so the
result contains neither a canonical hash for it nor the lower-cased
original token — refuting "for each input ref the result set contains
either ... or ...". -/
theorem resolve_commit_hashes_empty_ref_cex :
    resolve_commit_hashes envNoResolve {""} = ∅ ∧
    pyLower "" ∉ resolve_commit_hashes envNoResolve {""} := by
  constructor
  · decide
  · decide

/-- C8 (amended): `resolve_commit_hashes` is a total function (it never
fails the whole operation), and for each input ref whose stripped,
lower-cased form is non-empty, the result set contains the lower-cased,
stripped canonical hash when `rev-parse --verify` resolves that form, and
otherwise the stripped, lower-cased original token as a literal fallback;
refs that are blank after stripping are skipped and contribute nothing. -/
theorem resolve_commit_hashes_covers (env : GitEnv) (refs : Finset String) (r : String)
    (hr : r ∈ refs) (hne : pyLower (pyStrip r) ≠ "") :
    (match env.rev_parse_verify (pyLower (pyStrip r)) with
     | some out => pyLower (pyStrip out) ∈ resolve_commit_hashes env refs
     | none => pyLower (pyStrip r) ∈ resolve_commit_hashes env refs) := by
  rcases hv : env.rev_parse_verify (pyLower (pyStrip r)) with _ | out
  · refine Finset.mem_biUnion.mpr ⟨r, hr, ?_⟩
    simp [resolve_one, hne, hv]
  · refine Finset.mem_biUnion.mpr ⟨r, hr, ?_⟩
    simp [resolve_one, hne, hv]

def envResolveOne : GitEnv :=
  ⟨true, "", fun c => if c = "abc" then some "ABCDEF0\n" else none,
    none, none, none, fun _ => none, none⟩

/-- C8 witness: the ref `"AbC"` resolves (after stripping and lowering)
to stdout `"ABCDEF0\n"`, whose stripped lower-cased form is in the
resolved set. -/
theorem resolve_commit_hashes_covers_witness :
    pyLower (pyStrip "ABCDEF0\n") ∈ resolve_commit_hashes envResolveOne {"AbC"} :=
  resolve_commit_hashes_covers envResolveOne {"AbC"} "AbC" (by decide) (by decide)

-- ### C6: load_commit_list

/-- Spec-side (§6 commit-list format): blank lines and `#`/`//` comments
are skipped. -/
def commit_list_line_skipped (raw : String) : Bool :=
  let line := pyStrip raw
  line == "" || pyStartsWith line "#" || pyStartsWith line "//"

/-- Spec-side: a non-skipped line containing embedded whitespace aborts
loading. -/
def commit_list_line_bad (raw : String) : Bool :=
  !commit_list_line_skipped raw && (pyStrip raw).data.any Char.isWhitespace

/-- Spec-side: 1-based index of the first offending line. -/
def first_bad_line_from (n : Nat) : List String → Option Nat
  | [] => none
  | raw :: rest =>
    if commit_list_line_bad raw then some n else first_bad_line_from (n + 1) rest

/-- Spec-side: 1-based index of the first offending line of the file. -/
def first_bad_line (lines : List String) : Option Nat := first_bad_line_from 1 lines

theorem load_commit_list_from_spec : ∀ (lines : List String) (n : Nat) (acc : Finset String),
    (∀ k, first_bad_line_from n lines = some k →
      load_commit_list_from n acc lines =
        .error ("Invalid commit list line " ++ toString k ++
          ": commit hash must not contain spaces")) ∧
    (first_bad_line_from n lines = none →
      ∃ s, load_commit_list_from n acc lines = .ok s ∧
        ∀ h, h ∈ s ↔ (h ∈ acc ∨ ∃ raw ∈ lines, commit_list_line_skipped raw = false ∧
          commit_list_line_bad raw = false ∧ h = pyLower (pyStrip raw)))
  | [], n, acc => by
    constructor
    · intro k hk
      simp [first_bad_line_from] at hk
    · intro _
      exact ⟨acc, rfl, by simp⟩
  | raw :: rest, n, acc => by
    by_cases hskip : commit_list_line_skipped raw = true
    · have hbad : commit_list_line_bad raw = false := by
        simp [commit_list_line_bad, hskip]
      have hload : load_commit_list_from n acc (raw :: rest) =
          load_commit_list_from (n + 1) acc rest := by
        have := hskip
        simp only [commit_list_line_skipped] at this
        simp only [load_commit_list_from]
        rw [if_pos]
        simpa using this
      have hfb : first_bad_line_from n (raw :: rest) = first_bad_line_from (n + 1) rest := by
        simp [first_bad_line_from, hbad]
      obtain ⟨ih1, ih2⟩ := load_commit_list_from_spec rest (n + 1) acc
      constructor
      · intro k hk
        rw [hfb] at hk
        rw [hload]
        exact ih1 k hk
      · intro hnone
        rw [hfb] at hnone
        obtain ⟨s, hs, hmem⟩ := ih2 hnone
        refine ⟨s, by rw [hload]; exact hs, ?_⟩
        intro h
        rw [hmem h]
        constructor
        · rintro (ha | ⟨r, hr, hprop⟩)
          · exact Or.inl ha
          · exact Or.inr ⟨r, List.mem_cons_of_mem _ hr, hprop⟩
        · rintro (ha | ⟨r, hr, hprop⟩)
          · exact Or.inl ha
          · rcases List.mem_cons.mp hr with heq | hr2
            · subst heq
              exact absurd hprop.1 (by simp [hskip])
            · exact Or.inr ⟨r, hr2, hprop⟩
    · have hskipf : commit_list_line_skipped raw = false := by
        simpa using hskip
      by_cases hws : (pyStrip raw).data.any Char.isWhitespace = true
      · have hbad : commit_list_line_bad raw = true := by
          simp [commit_list_line_bad, hskipf, hws]
        have hload : load_commit_list_from n acc (raw :: rest) =
            .error ("Invalid commit list line " ++ toString n ++
              ": commit hash must not contain spaces") := by
          have hsk := hskipf
          simp only [commit_list_line_skipped, Bool.or_eq_false_iff,
            beq_eq_false_iff_ne, ne_eq] at hsk
          simp [load_commit_list_from, hsk.1.1, hsk.1.2, hsk.2, hws]
        constructor
        · intro k hk
          simp [first_bad_line_from, hbad] at hk
          subst hk
          exact hload
        · intro hnone
          simp [first_bad_line_from, hbad] at hnone
      · have hwsf : (pyStrip raw).data.any Char.isWhitespace = false := by
          simpa using hws
        have hbad : commit_list_line_bad raw = false := by
          simp [commit_list_line_bad, hwsf]
        have hload : load_commit_list_from n acc (raw :: rest) =
            load_commit_list_from (n + 1) (insert (pyLower (pyStrip raw)) acc) rest := by
          have hsk := hskipf
          simp only [commit_list_line_skipped, Bool.or_eq_false_iff,
            beq_eq_false_iff_ne, ne_eq] at hsk
          simp [load_commit_list_from, hsk.1.1, hsk.1.2, hsk.2, hwsf]
        have hfb : first_bad_line_from n (raw :: rest) = first_bad_line_from (n + 1) rest := by
          simp [first_bad_line_from, hbad]
        obtain ⟨ih1, ih2⟩ :=
          load_commit_list_from_spec rest (n + 1) (insert (pyLower (pyStrip raw)) acc)
        constructor
        · intro k hk
          rw [hfb] at hk
          rw [hload]
          exact ih1 k hk
        · intro hnone
          rw [hfb] at hnone
          obtain ⟨s, hs, hmem⟩ := ih2 hnone
          refine ⟨s, by rw [hload]; exact hs, ?_⟩
          intro h
          rw [hmem h]
          constructor
          · rintro (ha | ⟨r, hr, hprop⟩)
            · rcases Finset.mem_insert.mp ha with heq | ha2
              · exact Or.inr ⟨raw, List.mem_cons_self _ _, hskipf, hbad, heq⟩
              · exact Or.inl ha2
            · exact Or.inr ⟨r, List.mem_cons_of_mem _ hr, hprop⟩
          · rintro (ha | ⟨r, hr, hprop⟩)
            · exact Or.inl (Finset.mem_insert_of_mem ha)
            · rcases List.mem_cons.mp hr with heq | hr2
              · subst heq
                exact Or.inl (Finset.mem_insert.mpr (Or.inl hprop.2.2))
              · exact Or.inr ⟨r, hr2, hprop⟩

/-- C6: `load_commit_list` skips blank and `#`/`//` comment lines; if some
remaining line contains whitespace, loading fails with an error naming the
(first) offending 1-based line number; otherwise it succeeds and the
returned set holds exactly the lower-cased stripped content of every
non-skipped line. -/
theorem load_commit_list_spec (lines : List String) :
    (∀ k, first_bad_line lines = some k →
      load_commit_list lines =
        .error ("Invalid commit list line " ++ toString k ++
          ": commit hash must not contain spaces")) ∧
    (first_bad_line lines = none →
      ∃ s, load_commit_list lines = .ok s ∧
        ∀ h, h ∈ s ↔ ∃ raw ∈ lines, commit_list_line_skipped raw = false ∧
          commit_list_line_bad raw = false ∧ h = pyLower (pyStrip raw)) := by
  obtain ⟨h1, h2⟩ := load_commit_list_from_spec lines 1 ∅
  refine ⟨h1, fun hnone => ?_⟩
  obtain ⟨s, hs, hmem⟩ := h2 hnone
  exact ⟨s, hs, fun h => by rw [hmem h]; simp⟩

/-- C6 witness: a commit list whose line 2 contains embedded whitespace
fails naming line 2; a well-formed list with comments, blank lines and a
mixed-case entry loads the lower-cased stripped tokens. -/
theorem load_commit_list_spec_witness :
    load_commit_list ["ok", "a b"] =
      .error ("Invalid commit list line " ++ toString 2 ++
        ": commit hash must not contain spaces") ∧
    ∃ s, load_commit_list ["AbC", "", "# note", "// note", "  ffee12  "] = .ok s ∧
      ∀ h, h ∈ s ↔ ∃ raw ∈ ["AbC", "", "# note", "// note", "  ffee12  "],
        commit_list_line_skipped raw = false ∧
        commit_list_line_bad raw = false ∧ h = pyLower (pyStrip raw) :=
  ⟨(load_commit_list_spec ["ok", "a b"]).1 2 (by decide),
   (load_commit_list_spec ["AbC", "", "# note", "// note", "  ffee12  "]).2 (by decide)⟩

-- ### C1 / C3: collect_git_history_info_with_ignored_modification_commits

/-- The status-mode scan as `computeHistory` runs it: resolve the ignored
refs, then fold the `--name-status` log lines from the empty state. -/
def status_scan_result (env : GitEnv) (ignored : Finset String)
    (status_lines : List String) : StatusScan :=
  status_scan env.path_prefix_str (resolve_commit_hashes env ignored) ⟨∅, ∅, none⟩ status_lines

theorem collect_characterization (env : GitEnv) (ignored : Finset String)
    (ts_lines status_lines : List String) (fts : String → Option Int)
    (htrack : env.is_inside_work_tree = true)
    (hts : env.ts_log = some ts_lines)
    (hparse : parse_timestamp_log env.path_prefix_str none (fun _ => none) ts_lines = some fts)
    (hst : env.status_log = some status_lines) :
    collect_git_history_info_with_ignored_modification_commits env ignored =
      some ⟨true, fts,
        (status_scan_result env ignored status_lines).all_added_files \
          (status_scan_result env ignored status_lines).all_modified_files⟩ := by
  unfold collect_git_history_info_with_ignored_modification_commits status_scan_result
  rw [htrack, hts, hst]
  simp [hparse]

/-- C1: whenever `computeHistory` runs on a tracked repository and its two
log queries succeed, its `added_never_modified_files` result is exactly
the cumulative added-set minus the non-ignored modified-set of the status
scan — hence a subset of the added-set and disjoint from the non-ignored
modified-set — for any input ignored-commit set. -/
theorem added_never_modified_eq_diff (env : GitEnv) (ignored : Finset String)
    (ts_lines status_lines : List String) (fts : String → Option Int)
    (htrack : env.is_inside_work_tree = true)
    (hts : env.ts_log = some ts_lines)
    (hparse : parse_timestamp_log env.path_prefix_str none (fun _ => none) ts_lines = some fts)
    (hst : env.status_log = some status_lines) :
    collect_git_history_info_with_ignored_modification_commits env ignored =
      some ⟨true, fts,
        (status_scan_result env ignored status_lines).all_added_files \
          (status_scan_result env ignored status_lines).all_modified_files⟩ ∧
    (status_scan_result env ignored status_lines).all_added_files \
        (status_scan_result env ignored status_lines).all_modified_files ⊆
      (status_scan_result env ignored status_lines).all_added_files ∧
    Disjoint
      ((status_scan_result env ignored status_lines).all_added_files \
        (status_scan_result env ignored status_lines).all_modified_files)
      (status_scan_result env ignored status_lines).all_modified_files :=
  ⟨collect_characterization env ignored ts_lines status_lines fts htrack hts hparse hst,
   Finset.sdiff_subset, Finset.sdiff_disjoint⟩

def envHistoryW : GitEnv :=
  ⟨true, "", fun _ => none, some [], some ["__COMMIT__ h1", "A\ta.txt"],
    none, fun _ => none, none⟩

/-- C1 witness: a tracked repository with an empty timestamp log and one
commit adding `a.txt`. -/
theorem added_never_modified_eq_diff_witness :
    collect_git_history_info_with_ignored_modification_commits envHistoryW ∅ =
      some ⟨true, (fun _ => none),
        (status_scan_result envHistoryW ∅ ["__COMMIT__ h1", "A\ta.txt"]).all_added_files \
          (status_scan_result envHistoryW ∅ ["__COMMIT__ h1", "A\ta.txt"]).all_modified_files⟩ ∧
    (status_scan_result envHistoryW ∅ ["__COMMIT__ h1", "A\ta.txt"]).all_added_files \
        (status_scan_result envHistoryW ∅ ["__COMMIT__ h1", "A\ta.txt"]).all_modified_files ⊆
      (status_scan_result envHistoryW ∅ ["__COMMIT__ h1", "A\ta.txt"]).all_added_files ∧
    Disjoint
      ((status_scan_result envHistoryW ∅ ["__COMMIT__ h1", "A\ta.txt"]).all_added_files \
        (status_scan_result envHistoryW ∅ ["__COMMIT__ h1", "A\ta.txt"]).all_modified_files)
      (status_scan_result envHistoryW ∅ ["__COMMIT__ h1", "A\ta.txt"]).all_modified_files :=
  added_never_modified_eq_diff envHistoryW ∅ [] ["__COMMIT__ h1", "A\ta.txt"]
    (fun _ => none) rfl rfl rfl rfl

theorem resolve_commit_hashes_mono (env : GitEnv) {S T : Finset String} (h : S ⊆ T) :
    resolve_commit_hashes env S ⊆ resolve_commit_hashes env T :=
  Finset.biUnion_subset_biUnion_of_subset_left _ h

theorem commit_is_ignored_mono {R1 R2 : Finset String} (h : R1 ⊆ R2) (hash : String)
    (hi : commit_is_ignored R1 hash) : commit_is_ignored R2 hash := by
  obtain ⟨ig, hig, hm⟩ := hi
  exact ⟨ig, h hig, hm⟩

theorem status_scan_ignored_mono (pfx : String) (R1 R2 : Finset String) (hR : R1 ⊆ R2) :
    ∀ (lines : List String) (st1 st2 : StatusScan),
    st1.all_added_files = st2.all_added_files →
    st1.current_commit_hash = st2.current_commit_hash →
    st2.all_modified_files ⊆ st1.all_modified_files →
    (status_scan pfx R1 st1 lines).all_added_files =
        (status_scan pfx R2 st2 lines).all_added_files ∧
    (status_scan pfx R1 st1 lines).current_commit_hash =
        (status_scan pfx R2 st2 lines).current_commit_hash ∧
    (status_scan pfx R2 st2 lines).all_modified_files ⊆
        (status_scan pfx R1 st1 lines).all_modified_files
  | [], st1, st2, hadd, hcur, hmod => ⟨hadd, hcur, hmod⟩
  | raw :: rest, st1, st2, hadd, hcur, hmod => by
    have hstep :
        (status_scan_step pfx R1 st1 raw).all_added_files =
            (status_scan_step pfx R2 st2 raw).all_added_files ∧
        (status_scan_step pfx R1 st1 raw).current_commit_hash =
            (status_scan_step pfx R2 st2 raw).current_commit_hash ∧
        (status_scan_step pfx R2 st2 raw).all_modified_files ⊆
            (status_scan_step pfx R1 st1 raw).all_modified_files := by
      unfold status_scan_step
      by_cases hblank : pyStrip raw = ""
      · refine ⟨?_, ?_, ?_⟩ <;> simp [hblank, hadd, hcur, hmod]
      · by_cases hmark : pyStartsWith (pyStrip raw) "__COMMIT__" = true
        · refine ⟨?_, ?_, ?_⟩ <;> simp [hblank, hmark, hadd, hcur, hmod]
        · rcases htab : pySplitTab1 (pyStrip raw) with _ | ⟨status, rel_path⟩
          · refine ⟨?_, ?_, ?_⟩ <;> simp [hblank, hmark, htab, hadd, hcur, hmod]
          · rcases hnorm : truthyPath (normalize_git_path rel_path pfx) with _ | p
            · refine ⟨?_, ?_, ?_⟩ <;> simp [hblank, hmark, htab, hnorm, hadd, hcur, hmod]
            · by_cases hA : status = "A"
              · refine ⟨?_, ?_, ?_⟩ <;> simp [hblank, hmark, htab, hnorm, hA, hadd, hcur, hmod]
              · by_cases hM : status = "M"
                · rw [hcur]
                  by_cases hi1 : commit_is_ignored R1 (pyLower (st2.current_commit_hash.getD ""))
                  · have hi2 : commit_is_ignored R2 (pyLower (st2.current_commit_hash.getD "")) :=
                      commit_is_ignored_mono hR _ hi1
                    refine ⟨?_, ?_, ?_⟩ <;>
                      simp [hblank, hmark, htab, hnorm, hA, hM, hi1, hi2, hadd, hcur, hmod]
                  · by_cases hi2 : commit_is_ignored R2 (pyLower (st2.current_commit_hash.getD ""))
                    · refine ⟨?_, ?_, ?_⟩
                      · simp [hblank, hmark, htab, hnorm, hA, hM, hi1, hi2, hadd]
                      · simp [hblank, hmark, htab, hnorm, hA, hM, hi1, hi2, hcur]
                      · simp only [hblank, hmark, htab, hnorm, hA, hM, hi1, hi2,
                          if_neg, if_pos, ite_true, ite_false, if_true, if_false]
                        simp
                        exact hmod.trans (Finset.subset_insert _ _)
                    · refine ⟨?_, ?_, ?_⟩
                      · simp [hblank, hmark, htab, hnorm, hA, hM, hi1, hi2, hadd]
                      · simp [hblank, hmark, htab, hnorm, hA, hM, hi1, hi2, hcur]
                      · simp only [hblank, hmark, htab, hnorm, hA, hM, hi1, hi2,
                          if_neg, if_pos, ite_true, ite_false, if_true, if_false]
                        simp
                        exact Finset.insert_subset_insert _ hmod
                · refine ⟨?_, ?_, ?_⟩ <;>
                    simp [hblank, hmark, htab, hnorm, hA, hM, hadd, hcur, hmod]
    rw [show status_scan pfx R1 st1 (raw :: rest) =
          status_scan pfx R1 (status_scan_step pfx R1 st1 raw) rest from rfl,
        show status_scan pfx R2 st2 (raw :: rest) =
          status_scan pfx R2 (status_scan_step pfx R2 st2 raw) rest from rfl]
    exact status_scan_ignored_mono pfx R1 R2 hR rest _ _ hstep.1 hstep.2.1 hstep.2.2

/-- C3: for a fixed history (fixed log streams and ref-resolution results)
on a tracked repository, `added_never_modified_files` is monotone in the
ignored-commit set: with `S ⊆ T`, every path in the result for `S` is in
the result for `T`. -/
theorem added_never_modified_monotone (env : GitEnv) (S T : Finset String) (hST : S ⊆ T)
    (ts_lines status_lines : List String) (fts : String → Option Int)
    (htrack : env.is_inside_work_tree = true)
    (hts : env.ts_log = some ts_lines)
    (hparse : parse_timestamp_log env.path_prefix_str none (fun _ => none) ts_lines = some fts)
    (hst : env.status_log = some status_lines) :
    collect_git_history_info_with_ignored_modification_commits env S =
      some ⟨true, fts,
        (status_scan_result env S status_lines).all_added_files \
          (status_scan_result env S status_lines).all_modified_files⟩ ∧
    collect_git_history_info_with_ignored_modification_commits env T =
      some ⟨true, fts,
        (status_scan_result env T status_lines).all_added_files \
          (status_scan_result env T status_lines).all_modified_files⟩ ∧
    (status_scan_result env S status_lines).all_added_files \
        (status_scan_result env S status_lines).all_modified_files ⊆
      (status_scan_result env T status_lines).all_added_files \
        (status_scan_result env T status_lines).all_modified_files := by
  refine ⟨collect_characterization env S ts_lines status_lines fts htrack hts hparse hst,
    collect_characterization env T ts_lines status_lines fts htrack hts hparse hst, ?_⟩
  have h := status_scan_ignored_mono env.path_prefix_str
    (resolve_commit_hashes env S) (resolve_commit_hashes env T)
    (resolve_commit_hashes_mono env hST) status_lines ⟨∅, ∅, none⟩ ⟨∅, ∅, none⟩
    rfl rfl (Finset.Subset.refl ∅)
  unfold status_scan_result
  exact Finset.sdiff_subset_sdiff (h.1 ▸ Finset.Subset.refl _) h.2.2

def envMonoW : GitEnv :=
  ⟨true, "", fun _ => none, some [],
    some ["__COMMIT__ abc123", "A\ta.txt", "M\ta.txt"], none, fun _ => none, none⟩

/-- C3 witness: ignoring the modification commit `abc123` can only grow
the added-never-modified result. -/
theorem added_never_modified_monotone_witness :
    collect_git_history_info_with_ignored_modification_commits envMonoW ∅ =
      some ⟨true, (fun _ => none),
        (status_scan_result envMonoW ∅
            ["__COMMIT__ abc123", "A\ta.txt", "M\ta.txt"]).all_added_files \
          (status_scan_result envMonoW ∅
            ["__COMMIT__ abc123", "A\ta.txt", "M\ta.txt"]).all_modified_files⟩ ∧
    collect_git_history_info_with_ignored_modification_commits envMonoW {"abc123"} =
      some ⟨true, (fun _ => none),
        (status_scan_result envMonoW {"abc123"}
            ["__COMMIT__ abc123", "A\ta.txt", "M\ta.txt"]).all_added_files \
          (status_scan_result envMonoW {"abc123"}
            ["__COMMIT__ abc123", "A\ta.txt", "M\ta.txt"]).all_modified_files⟩ ∧
    (status_scan_result envMonoW ∅
        ["__COMMIT__ abc123", "A\ta.txt", "M\ta.txt"]).all_added_files \
      (status_scan_result envMonoW ∅
        ["__COMMIT__ abc123", "A\ta.txt", "M\ta.txt"]).all_modified_files ⊆
    (status_scan_result envMonoW {"abc123"}
        ["__COMMIT__ abc123", "A\ta.txt", "M\ta.txt"]).all_added_files \
      (status_scan_result envMonoW {"abc123"}
        ["__COMMIT__ abc123", "A\ta.txt", "M\ta.txt"]).all_modified_files :=
  added_never_modified_monotone envMonoW ∅ {"abc123"} (Finset.empty_subset _)
    [] ["__COMMIT__ abc123", "A\ta.txt", "M\ta.txt"] (fun _ => none) rfl rfl rfl rfl

-- ### C2: Timestamp-per-file mode

/-- One commit block of the Timestamp-per-file log stream: the raw marker
line (`__COMMIT__ <ct>`), the integer timestamp it carries, and the raw
file-path lines that follow it. -/
structure TsLogCommit where
  marker : String
  ts : Int
  paths : List String

/-- The line stream git emits for a list of commit blocks, oldest first. -/
def renderTsLog (bs : List TsLogCommit) : List String :=
  bs.flatMap (fun b => b.marker :: b.paths)

/-- The normalized path a raw line contributes in Timestamp-per-file mode
(`none` for blank lines, marker lines, and out-of-scope paths). -/
def ts_path_yield (pfx : String) (raw : String) : Option String :=
  let line := pyStrip raw
  if line = "" then none
  else if pyStartsWith line "__COMMIT__ " then none
  else truthyPath (normalize_git_path line pfx)

/-- Well-formedness of a rendered commit block: the marker line is a
marker carrying the block's timestamp, and no path line looks like a
marker. -/
def TsCommitWf (b : TsLogCommit) : Prop :=
  pyStartsWith (pyStrip b.marker) "__COMMIT__ " = true ∧
  (pySplit1Rest (pyStrip b.marker)).bind pyInt? = some b.ts ∧
  ∀ l ∈ b.paths, pyStartsWith (pyStrip l) "__COMMIT__ " = false

instance (b : TsLogCommit) : Decidable (TsCommitWf b) :=
  inferInstanceAs (Decidable (pyStartsWith (pyStrip b.marker) "__COMMIT__ " = true ∧
    (pySplit1Rest (pyStrip b.marker)).bind pyInt? = some b.ts ∧
    ∀ l ∈ b.paths, pyStartsWith (pyStrip l) "__COMMIT__ " = false))

/-- Does a block touch (add or modify) path `p`? -/
def tsBlockTouches (pfx p : String) (b : TsLogCommit) : Bool :=
  b.paths.any (fun l => ts_path_yield pfx l == some p)

/-- The timestamp of the last block in stream order touching `p`. -/
def lastBlockTs (pfx : String) : List TsLogCommit → String → Option Int
  | [], _ => none
  | b :: bs, p =>
    match lastBlockTs pfx bs p with
    | some t => some t
    | none => if tsBlockTouches pfx p b then some b.ts else none

/-- The map update performed by the path lines of one block. -/
def tsPathsUpd (pfx : String) (t : Int) (paths : List String) (m : String → Option Int) :
    String → Option Int :=
  paths.foldl (fun acc l =>
    match ts_path_yield pfx l with
    | none => acc
    | some p => fun s => if s = p then some t else acc s) m

theorem parse_ts_paths_append (pfx : String) (t : Int) :
    ∀ (paths : List String) (m : String → Option Int) (rest : List String),
    (∀ l ∈ paths, pyStartsWith (pyStrip l) "__COMMIT__ " = false) →
    parse_timestamp_log pfx (some t) m (paths ++ rest) =
      parse_timestamp_log pfx (some t) (tsPathsUpd pfx t paths m) rest
  | [], m, rest, _ => rfl
  | l :: ps, m, rest, h => by
    have hm := h l (List.mem_cons_self _ _)
    have hrest := fun x hx => h x (List.mem_cons_of_mem _ hx)
    rw [List.cons_append]
    by_cases hblank : pyStrip l = ""
    · have hy : ts_path_yield pfx l = none := by simp [ts_path_yield, hblank]
      rw [show parse_timestamp_log pfx (some t) m (l :: (ps ++ rest)) =
            parse_timestamp_log pfx (some t) m (ps ++ rest) from by
        simp [parse_timestamp_log, hblank]]
      rw [parse_ts_paths_append pfx t ps m rest hrest]
      rw [show tsPathsUpd pfx t (l :: ps) m = tsPathsUpd pfx t ps m from by
        simp [tsPathsUpd, hy]]
    · rcases hy : truthyPath (normalize_git_path (pyStrip l) pfx) with _ | p
      · have hy2 : ts_path_yield pfx l = none := by simp [ts_path_yield, hblank, hm, hy]
        rw [show parse_timestamp_log pfx (some t) m (l :: (ps ++ rest)) =
              parse_timestamp_log pfx (some t) m (ps ++ rest) from by
          simp [parse_timestamp_log, hblank, hm, hy]]
        rw [parse_ts_paths_append pfx t ps m rest hrest]
        rw [show tsPathsUpd pfx t (l :: ps) m = tsPathsUpd pfx t ps m from by
          simp [tsPathsUpd, hy2]]
      · have hy2 : ts_path_yield pfx l = some p := by simp [ts_path_yield, hblank, hm, hy]
        rw [show parse_timestamp_log pfx (some t) m (l :: (ps ++ rest)) =
              parse_timestamp_log pfx (some t)
                (fun s => if s = p then some t else m s) (ps ++ rest) from by
          simp [parse_timestamp_log, hblank, hm, hy]]
        rw [parse_ts_paths_append pfx t ps _ rest hrest]
        rw [show tsPathsUpd pfx t (l :: ps) m =
              tsPathsUpd pfx t ps (fun s => if s = p then some t else m s) from by
          simp [tsPathsUpd, hy2]]

theorem tsPathsUpd_spec (pfx : String) (t : Int) :
    ∀ (paths : List String) (m : String → Option Int) (p : String),
    tsPathsUpd pfx t paths m p =
      if paths.any (fun l => ts_path_yield pfx l == some p) then some t else m p
  | [], m, p => by simp [tsPathsUpd]
  | l :: ps, m, p => by
    rcases hy : ts_path_yield pfx l with _ | q
    · rw [show tsPathsUpd pfx t (l :: ps) m = tsPathsUpd pfx t ps m from by
        simp [tsPathsUpd, hy]]
      rw [tsPathsUpd_spec pfx t ps m p]
      simp [hy]
    · rw [show tsPathsUpd pfx t (l :: ps) m =
          tsPathsUpd pfx t ps (fun s => if s = q then some t else m s) from by
        simp [tsPathsUpd, hy]]
      rw [tsPathsUpd_spec pfx t ps _ p]
      by_cases hpq : p = q
      · subst hpq
        simp [hy]
      · simp [hy, List.any_cons, Ne.symm hpq, hpq]

theorem parse_ts_render (pfx : String) :
    ∀ (bs : List TsLogCommit) (cur : Option Int) (m : String → Option Int),
    (∀ b ∈ bs, TsCommitWf b) →
    parse_timestamp_log pfx cur m (renderTsLog bs) =
      some (fun p => match lastBlockTs pfx bs p with | some t => some t | none => m p)
  | [], cur, m, _ => by
    simp [renderTsLog, parse_timestamp_log, lastBlockTs]
  | b :: bs, cur, m, hwf => by
    have hb := hwf b (List.mem_cons_self _ _)
    have hbs := fun x hx => hwf x (List.mem_cons_of_mem _ hx)
    obtain ⟨hsw, hval, hpaths⟩ := hb
    have hne : pyStrip b.marker ≠ "" := by
      intro h0
      rw [h0] at hsw
      exact absurd hsw (by decide)
    rcases hsp : pySplit1Rest (pyStrip b.marker) with _ | payload
    · rw [hsp] at hval
      simp at hval
    · rw [hsp] at hval
      simp only [Option.some_bind] at hval
      rw [show renderTsLog (b :: bs) = b.marker :: (b.paths ++ renderTsLog bs) from by
        simp [renderTsLog]]
      rw [show parse_timestamp_log pfx cur m (b.marker :: (b.paths ++ renderTsLog bs)) =
            parse_timestamp_log pfx (some b.ts) m (b.paths ++ renderTsLog bs) from by
        simp [parse_timestamp_log, hne, hsw, hsp, hval]]
      rw [parse_ts_paths_append pfx b.ts b.paths m (renderTsLog bs) hpaths]
      rw [parse_ts_render pfx bs (some b.ts) _ hbs]
      congr 1
      funext p
      rcases hl : lastBlockTs pfx bs p with _ | t
      · rw [tsPathsUpd_spec]
        by_cases htouch : tsBlockTouches pfx p b = true
        · simp only [lastBlockTs, hl]
          rw [show (b.paths.any (fun l => ts_path_yield pfx l == some p)) = true from htouch]
          simp [htouch]
        · have htouch2 : tsBlockTouches pfx p b = false := by simpa using htouch
          simp only [lastBlockTs, hl]
          rw [show (b.paths.any (fun l => ts_path_yield pfx l == some p)) = false from htouch2]
          simp [htouch2]
      · simp [lastBlockTs, hl]

/-- C2: for every well-formed Timestamp-per-file log stream, the parse
succeeds and maps each path `p` exactly to the marker timestamp of the
last commit block in stream order containing `p` (and to nothing when no
block contains `p`) — so with the log requested oldest-first, the stored
value is the `%ct` of the most recent first-parent `AM` commit touching
`p`. -/
theorem timestamp_map_matches_last_block (pfx : String) (bs : List TsLogCommit)
    (hwf : ∀ b ∈ bs, TsCommitWf b) :
    parse_timestamp_log pfx none (fun _ => none) (renderTsLog bs) =
      some (fun p => lastBlockTs pfx bs p) := by
  rw [parse_ts_render pfx bs none _ hwf]
  congr 1
  funext p
  rcases hl : lastBlockTs pfx bs p with _ | t <;> simp [hl]

def tsBlocksW : List TsLogCommit :=
  [⟨"__COMMIT__ 3", 3, ["a.txt"]⟩, ⟨"__COMMIT__ 7", 7, ["a.txt", "b.txt"]⟩]

/-- C2 witness: two commits touching `a.txt`; the later (timestamp 7)
block wins. -/
theorem timestamp_map_matches_last_block_witness :
    parse_timestamp_log "" none (fun _ => none) (renderTsLog tsBlocksW) =
      some (fun p => lastBlockTs "" tsBlocksW p) :=
  timestamp_map_matches_last_block "" tsBlocksW (by decide)

-- ### C4: path lines before the first marker

/-- C4 (amended): in Timestamp-per-file mode, every line before the first
marker (any line whose stripped form does not start with `__COMMIT__ `)
is discarded and contributes nothing to the resulting map, because the
scan skips path lines while `current_timestamp` is unset; the
Status-per-file and Description modes lack this guard (see the
counterexample). -/
theorem timestamp_scan_discards_pre_marker_paths (pfx : String) :
    ∀ (pre : List String), ∀ (rest : List String) (m : String → Option Int),
    (∀ l ∈ pre, pyStartsWith (pyStrip l) "__COMMIT__ " = false) →
    parse_timestamp_log pfx none m (pre ++ rest) = parse_timestamp_log pfx none m rest
  | [], rest, m, _ => rfl
  | l :: ps, rest, m, h => by
    have hm := h l (List.mem_cons_self _ _)
    have hps := fun x hx => h x (List.mem_cons_of_mem _ hx)
    rw [List.cons_append]
    by_cases hblank : pyStrip l = ""
    · rw [show parse_timestamp_log pfx none m (l :: (ps ++ rest)) =
            parse_timestamp_log pfx none m (ps ++ rest) from by
        simp [parse_timestamp_log, hblank]]
      exact timestamp_scan_discards_pre_marker_paths pfx ps rest m hps
    · rw [show parse_timestamp_log pfx none m (l :: (ps ++ rest)) =
            parse_timestamp_log pfx none m (ps ++ rest) from by
        simp [parse_timestamp_log, hblank, hm]]
      exact timestamp_scan_discards_pre_marker_paths pfx ps rest m hps

/-- C4 witness: one junk path line before the first marker changes
nothing in Timestamp-per-file mode. -/
theorem timestamp_scan_discards_pre_marker_paths_witness :
    parse_timestamp_log "" none (fun _ => none)
        (["junk.txt"] ++ ["__COMMIT__ 9", "a.txt"]) =
      parse_timestamp_log "" none (fun _ => none) ["__COMMIT__ 9", "a.txt"] :=
  timestamp_scan_discards_pre_marker_paths "" ["junk.txt"]
    ["__COMMIT__ 9", "a.txt"] (fun _ => none) (by decide)

/-- C4 counterexample: the claim fails for the Status-per-file and
Description modes.  A status line `A<TAB>a.txt` arriving before any
marker is recorded in the added set (the status loop has no
`current commit is None` guard), and in Description mode the first three
pre-marker lines are absorbed as hash/date/subject and a fourth becomes a
recorded path entry carrying that garbage triple. -/
theorem pre_marker_paths_not_discarded_cex :
    (status_scan "" ∅ ⟨∅, ∅, none⟩ ["A\ta.txt"]).all_added_files = {"a.txt"} ∧
    (status_scan "" ∅ ⟨∅, ∅, none⟩ ["A\ta.txt"]).all_added_files ≠ ∅ ∧
    ((["h1", "2024-01-01", "subject", "a.txt"].foldl (desc_scan_step "")
        ⟨fun _ => none, none, none, none⟩).descriptions) "a.txt" =
      some (some ⟨"h1", "2024-01-01", "subject"⟩) := by
  refine ⟨by decide, by decide, ?_⟩
  rfl

-- ### C10: get_last_commit_timestamps

/-- One commit block of the plain `--format=__COMMIT__%ct --name-only`
log stream: the raw marker line (`__COMMIT__<ct>`, no space), the integer
timestamp it carries, and the raw path lines that follow it. -/
structure PlainLogCommit where
  marker : String
  ts : Int
  paths : List String

/-- The line stream git emits for a list of commit blocks (newest first
for this query, which has no `--reverse` flag). -/
def renderPlainLog (bs : List PlainLogCommit) : List String :=
  bs.flatMap (fun b => b.marker :: b.paths)

/-- The dict key a raw line contributes in `get_last_commit_timestamps`
(`Path(line)`, modelled by `posixNormalize`); `none` for blank lines and
marker lines. -/
def plain_path_key (raw : String) : Option String :=
  if raw = "" then none
  else if pyStartsWith raw "__COMMIT__" then none
  else some (posixNormalize raw)

/-- Well-formedness of a rendered plain-log commit block. -/
def PlainCommitWf (b : PlainLogCommit) : Prop :=
  pyStartsWith b.marker "__COMMIT__" = true ∧
  pyInt? (pyDropChars b.marker (pyLen "__COMMIT__")) = some b.ts ∧
  ∀ l ∈ b.paths, pyStartsWith l "__COMMIT__" = false

instance (b : PlainLogCommit) : Decidable (PlainCommitWf b) :=
  inferInstanceAs (Decidable (pyStartsWith b.marker "__COMMIT__" = true ∧
    pyInt? (pyDropChars b.marker (pyLen "__COMMIT__")) = some b.ts ∧
    ∀ l ∈ b.paths, pyStartsWith l "__COMMIT__" = false))

/-- Does a plain-log block contain path key `p`? -/
def plainBlockTouches (p : String) (b : PlainLogCommit) : Bool :=
  b.paths.any (fun l => plain_path_key l == some p)

/-- The timestamp of the first block in stream order containing `p`. -/
def firstBlockTs : List PlainLogCommit → String → Option Int
  | [], _ => none
  | b :: bs, p => if plainBlockTouches p b then some b.ts else firstBlockTs bs p

/-- The first-write-wins map update performed by one block's path lines. -/
def plainPathsUpd (t : Int) (paths : List String) (m : String → Option Int) :
    String → Option Int :=
  paths.foldl (fun acc l =>
    match plain_path_key l with
    | none => acc
    | some k =>
      match acc k with
      | some _ => acc
      | none => fun s => if s = k then some t else acc s) m

theorem plain_scan_paths_append (t : Int) :
    ∀ (paths : List String) (m : String → Option Int) (rest : List String),
    (∀ l ∈ paths, pyStartsWith l "__COMMIT__" = false) →
    last_timestamps_scan (some t) m (paths ++ rest) =
      last_timestamps_scan (some t) (plainPathsUpd t paths m) rest
  | [], m, rest, _ => rfl
  | l :: ps, m, rest, h => by
    have hm := h l (List.mem_cons_self _ _)
    have hps := fun x hx => h x (List.mem_cons_of_mem _ hx)
    rw [List.cons_append]
    by_cases hblank : l = ""
    · have hy : plain_path_key l = none := by simp [plain_path_key, hblank]
      rw [show last_timestamps_scan (some t) m (l :: (ps ++ rest)) =
            last_timestamps_scan (some t) m (ps ++ rest) from by
        simp [last_timestamps_scan, hblank]]
      rw [plain_scan_paths_append t ps m rest hps]
      rw [show plainPathsUpd t (l :: ps) m = plainPathsUpd t ps m from by
        simp [plainPathsUpd, hy]]
    · have hy : plain_path_key l = some (posixNormalize l) := by
        simp [plain_path_key, hblank, hm]
      rcases hmk : m (posixNormalize l) with _ | v
      · rw [show last_timestamps_scan (some t) m (l :: (ps ++ rest)) =
              last_timestamps_scan (some t)
                (fun s => if s = posixNormalize l then some t else m s) (ps ++ rest) from by
          simp [last_timestamps_scan, hblank, hm, hmk]]
        rw [plain_scan_paths_append t ps _ rest hps]
        rw [show plainPathsUpd t (l :: ps) m =
              plainPathsUpd t ps (fun s => if s = posixNormalize l then some t else m s) from by
          simp [plainPathsUpd, hy, hmk]]
      · rw [show last_timestamps_scan (some t) m (l :: (ps ++ rest)) =
              last_timestamps_scan (some t) m (ps ++ rest) from by
          simp [last_timestamps_scan, hblank, hm, hmk]]
        rw [plain_scan_paths_append t ps m rest hps]
        rw [show plainPathsUpd t (l :: ps) m = plainPathsUpd t ps m from by
          simp [plainPathsUpd, hy, hmk]]

theorem plainPathsUpd_spec (t : Int) :
    ∀ (paths : List String) (m : String → Option Int) (p : String),
    plainPathsUpd t paths m p =
      match m p with
      | some v => some v
      | none => if paths.any (fun l => plain_path_key l == some p) then some t else none
  | [], m, p => by
    rcases hm : m p with _ | v <;> simp [plainPathsUpd, hm]
  | l :: ps, m, p => by
    rcases hy : plain_path_key l with _ | k
    · rw [show plainPathsUpd t (l :: ps) m = plainPathsUpd t ps m from by
        simp [plainPathsUpd, hy]]
      rw [plainPathsUpd_spec t ps m p]
      rcases hm : m p with _ | v <;> simp [hy, hm]
    · rcases hmk : m k with _ | v0
      · rw [show plainPathsUpd t (l :: ps) m =
              plainPathsUpd t ps (fun s => if s = k then some t else m s) from by
          simp [plainPathsUpd, hy, hmk]]
        rw [plainPathsUpd_spec t ps _ p]
        by_cases hpk : p = k
        · subst hpk
          simp [hy, hmk]
        · rcases hm : m p with _ | v
          · simp [hy, hpk, hm, Ne.symm hpk]
          · simp [hy, hpk, hm]
      · rw [show plainPathsUpd t (l :: ps) m = plainPathsUpd t ps m from by
          simp [plainPathsUpd, hy, hmk]]
        rw [plainPathsUpd_spec t ps m p]
        by_cases hpk : p = k
        · subst hpk
          simp [hy, hmk]
        · rcases hm : m p with _ | v
          · simp [hy, hpk, hm, Ne.symm hpk]
          · simp [hy, hpk, hm]

theorem plain_scan_render :
    ∀ (bs : List PlainLogCommit) (cur : Option Int) (m : String → Option Int),
    (∀ b ∈ bs, PlainCommitWf b) →
    last_timestamps_scan cur m (renderPlainLog bs) =
      some (fun p => match m p with | some v => some v | none => firstBlockTs bs p)
  | [], cur, m, _ => by
    simp only [renderPlainLog, List.flatMap_nil, last_timestamps_scan, firstBlockTs]
    congr 1
    funext p
    rcases hm : m p with _ | v <;> simp [hm]
  | b :: bs, cur, m, hwf => by
    have hb := hwf b (List.mem_cons_self _ _)
    have hbs := fun x hx => hwf x (List.mem_cons_of_mem _ hx)
    obtain ⟨hsw, hval, hpaths⟩ := hb
    have hne : b.marker ≠ "" := by
      intro h0
      rw [h0] at hsw
      exact absurd hsw (by decide)
    rw [show renderPlainLog (b :: bs) = b.marker :: (b.paths ++ renderPlainLog bs) from by
      simp [renderPlainLog]]
    rw [show last_timestamps_scan cur m (b.marker :: (b.paths ++ renderPlainLog bs)) =
          last_timestamps_scan (some b.ts) m (b.paths ++ renderPlainLog bs) from by
      simp [last_timestamps_scan, hne, hsw, hval]]
    rw [plain_scan_paths_append b.ts b.paths m (renderPlainLog bs) hpaths]
    rw [plain_scan_render bs (some b.ts) _ hbs]
    congr 1
    funext p
    rw [plainPathsUpd_spec]
    rcases hm : m p with _ | v
    · by_cases htouch : plainBlockTouches p b = true
      · rw [show (b.paths.any (fun l => plain_path_key l == some p)) = true from htouch]
        simp [firstBlockTs, htouch]
      · have htouch2 : plainBlockTouches p b = false := by simpa using htouch
        rw [show (b.paths.any (fun l => plain_path_key l == some p)) = false from htouch2]
        simp [firstBlockTs, htouch2]
    · simp [firstBlockTs]

theorem plain_scan_skips_pre_marker :
    ∀ (pre : List String) (m : String → Option Int) (rest : List String),
    (∀ l ∈ pre, pyStartsWith l "__COMMIT__" = false) →
    last_timestamps_scan none m (pre ++ rest) = last_timestamps_scan none m rest
  | [], m, rest, _ => rfl
  | l :: ps, m, rest, h => by
    have hm := h l (List.mem_cons_self _ _)
    have hps := fun x hx => h x (List.mem_cons_of_mem _ hx)
    rw [List.cons_append]
    by_cases hblank : l = ""
    · rw [show last_timestamps_scan none m (l :: (ps ++ rest)) =
            last_timestamps_scan none m (ps ++ rest) from by
        simp [last_timestamps_scan, hblank]]
      exact plain_scan_skips_pre_marker ps m rest hps
    · rw [show last_timestamps_scan none m (l :: (ps ++ rest)) =
            last_timestamps_scan none m (ps ++ rest) from by
        simp [last_timestamps_scan, hblank, hm]]
      exact plain_scan_skips_pre_marker ps m rest hps

/-- C10: `get_last_commit_timestamps` uses the newest-first,
first-write-wins convention: on a well-formed stream (optionally preceded
by non-marker junk lines, which are skipped), each path key maps exactly
to the marker timestamp of the first commit block in stream order
containing it — later occurrences never overwrite — and paths in no block
are absent. -/
theorem get_last_commit_timestamps_first_write_wins (env : GitEnv)
    (pre : List String) (bs : List PlainLogCommit)
    (hpre : ∀ l ∈ pre, pyStartsWith l "__COMMIT__" = false)
    (hwf : ∀ b ∈ bs, PlainCommitWf b)
    (hlog : env.plain_log = some (pre ++ renderPlainLog bs)) :
    get_last_commit_timestamps env = some (fun p => firstBlockTs bs p) := by
  unfold get_last_commit_timestamps
  rw [hlog]
  show last_timestamps_scan none (fun _ => none) (pre ++ renderPlainLog bs) =
    some (fun p => firstBlockTs bs p)
  rw [plain_scan_skips_pre_marker pre _ _ hpre]
  rw [plain_scan_render bs none _ hwf]

def plainBlocksW : List PlainLogCommit :=
  [⟨"__COMMIT__9", 9, ["a.txt"]⟩, ⟨"__COMMIT__4", 4, ["a.txt", "b.txt"]⟩]

def envPlainW : GitEnv :=
  ⟨true, "", fun _ => none, none, none, none, fun _ => none,
    some (["junk.txt"] ++ renderPlainLog plainBlocksW)⟩

/-- C10 witness: `a.txt` appears in both blocks; the first (newest,
timestamp 9) wins, and the pre-marker junk line is skipped. -/
theorem get_last_commit_timestamps_first_write_wins_witness :
    get_last_commit_timestamps envPlainW = some (fun p => firstBlockTs plainBlocksW p) :=
  get_last_commit_timestamps_first_write_wins envPlainW ["junk.txt"] plainBlocksW
    (by decide) (by decide) rfl
